import Mathlib

/-!
Shallow embedding of the samey image-board core: the tag-based search compiler,
the visibility filter, pagination, the pool position allocator and the tag
lifecycle helper, translated from src/src/query.rs, src/src/views.rs,
src/src/tags.rs and the schema in
src/migration/src/m20250405_000001_create_table.rs.

Database tables are modelled as lists of rows.  The f32 position column is
modelled as an exact rational: every operation the code performs on positions
(midpoint of two values, floor, plus one, plus two, maximum, comparison) is
exact in f32 at the magnitudes the properties exercise, so the rational model
is faithful there.
-/

namespace Samey

/-- An authenticated user, from struct User in src/src/auth.rs
(fields id and is_admin; username is display glue). -/
structure User where
  id : Int
  is_admin : Bool
  deriving DecidableEq

/-- A row of the samey_post table (src/src/entities/samey_post.rs and the
migration): the columns the search, visibility and pool logic read.  Media,
thumbnail, title, description, timestamps and parent_id are carried along
unexamined by that logic and are omitted. -/
structure Post where
  id : Int
  is_public : Bool
  uploader_id : Int
  rating : String
  deriving DecidableEq

/-- A row of the samey_tag table: id, display name, and the lowercased
normalized_name which is unique. -/
structure TagRow where
  id : Int
  name : String
  normalized_name : String
  deriving DecidableEq

/-- A row of the samey_tag_post association table (unique on
(post_id, tag_id), cascade-deleted when its tag or post is deleted). -/
structure TagPost where
  id : Int
  tag_id : Int
  post_id : Int
  deriving DecidableEq

/-- A row of the samey_pool_post membership table, carrying the fractional
position ordering key (an f32 column, modelled as an exact rational). -/
structure PoolPostRow where
  id : Int
  pool_id : Int
  post_id : Int
  position : ℚ
  deriving DecidableEq

/-- The database state the embedded operations read and write. -/
structure Db where
  posts : List Post
  tags : List TagRow
  tag_posts : List TagPost
  pool_posts : List PoolPostRow
  deriving DecidableEq

/-- Row uniqueness guaranteed by the schema: primary keys are unique, the
normalized tag name has a unique index, and (post_id, tag_id) has a unique
index on the association table. -/
structure DbInv (db : Db) : Prop where
  posts_id : db.posts.Pairwise (fun a b => a.id ≠ b.id)
  tags_id : db.tags.Pairwise (fun a b => a.id ≠ b.id)
  tags_name : db.tags.Pairwise (fun a b => a.normalized_name ≠ b.normalized_name)
  tag_post_unique :
    db.tag_posts.Pairwise (fun a b => ¬(a.post_id = b.post_id ∧ a.tag_id = b.tag_id))

/-! ## TagTokenClassifier (src/src/tags.rs constants, src/src/query.rs 37-56) -/

/-- Rust str::to_lowercase, modelled character-wise; the tag and rating
tokens the code compares are ASCII, where this matches exactly. -/
def lowercase (s : String) : String := ⟨s.data.map Char.toLower⟩

/-- The NEGATIVE_PREFIX constant from src/src/tags.rs. -/
def negMarker : String := "-"

/-- The RATING_PREFIX constant from src/src/tags.rs. -/
def ratingMarker : String := "rating:"

/-- The four classified token sets built by search_posts. -/
structure TokenSets where
  include_tags : Finset String
  exclude_tags : Finset String
  include_ratings : Finset String
  exclude_ratings : Finset String
  deriving DecidableEq

/-- Classification of one whitespace-delimited token
(src/src/query.rs 42-55): lowercase, then route by the negation and rating
markers, stripping them.  The markers are ASCII so the source's byte-index
split_off is the same as dropping that many characters. -/
def classifyToken (s : TokenSets) (tok : String) : TokenSets :=
  let t := lowercase tok
  if t.startsWith negMarker then
    if (t.drop negMarker.length).startsWith ratingMarker then
      { s with exclude_ratings :=
          insert (t.drop (negMarker.length + ratingMarker.length)) s.exclude_ratings }
    else
      { s with exclude_tags := insert (t.drop negMarker.length) s.exclude_tags }
  else if t.startsWith ratingMarker then
    { s with include_ratings := insert (t.drop ratingMarker.length) s.include_ratings }
  else
    { s with include_tags := insert t s.include_tags }

/-- The four empty token sets search_posts starts from. -/
def emptyTokenSets : TokenSets :=
  { include_tags := ∅, exclude_tags := ∅, include_ratings := ∅, exclude_ratings := ∅ }

/-- Classify a whole token list, as the loop in search_posts does. -/
def classifyTokens (tokens : List String) : TokenSets :=
  tokens.foldl classifyToken emptyTokenSets

/-! ## VisibilityPredicate (src/src/query.rs 265-278) -/

/-- The condition filter_posts_by_user ANDs onto a post query: anonymous
callers see public rows, admins see everything, other users see public rows
plus their own. -/
def filter_posts_by_user (u : Option User) (p : Post) : Bool :=
  match u with
  | none => p.is_public
  | some user => if user.is_admin then true else p.is_public || decide (p.uploader_id = user.id)

/-! ## SearchQueryCompiler (src/src/query.rs 33-157) -/

/-- The joined rows contributed by one post in the include-tags subquery
(src/src/query.rs 107-123): its association rows, inner-joined to the tag rows
whose normalized name is in the include set. -/
def includeInnerRows (db : Db) (names : Finset String) (q : Post) :
    List (Post × TagPost × TagRow) :=
  (db.tag_posts.filter (fun tp => decide (tp.post_id = q.id))).flatMap (fun tp =>
    (db.tags.filter (fun tg =>
      decide (tp.tag_id = tg.id) && decide (tg.normalized_name ∈ names))).map
      (fun tg => (q, tp, tg)))

/-- The rows of the include-tags subquery join (src/src/query.rs 107-123):
samey_post inner join samey_tag_post on post.id = tag_post.post_id inner join
samey_tag on tag_post.tag_id = tag.id, where the normalized tag name is in the
include set. -/
def includeJoinRows (db : Db) (names : Finset String) : List (Post × TagPost × TagRow) :=
  db.posts.flatMap (includeInnerRows db names)

/-- The COUNT(samey_tag.id) aggregate of the include subquery for one group
(one post id). -/
def includeCount (db : Db) (pid : Int) (names : Finset String) : Nat :=
  ((includeJoinRows db names).filter (fun r => decide (r.1.id = pid))).length

/-- Membership of a post id in the include-tags subquery: GROUP BY emits a
group only when it has at least one row, and HAVING keeps it only when the
count equals the number of include tags. -/
def inIncludeSub (db : Db) (names : Finset String) (pid : Int) : Bool :=
  decide (0 < includeCount db pid names) && decide (includeCount db pid names = names.card)

/-- Membership of a post id in the exclude-tags subquery
(src/src/query.rs 127-141): the same join, with the normalized tag name in the
exclude set, no grouping. -/
def inExcludeSub (db : Db) (names : Finset String) (pid : Int) : Bool :=
  db.posts.any (fun q => decide (q.id = pid) &&
    db.tag_posts.any (fun tp => decide (tp.post_id = q.id) &&
      db.tags.any (fun tg =>
        decide (tp.tag_id = tg.id) && decide (tg.normalized_name ∈ names))))

/-- The include-tags filter: applied only when the set is non-empty
(src/src/query.rs 105, 124). -/
def includeFilter (db : Db) (names : Finset String) (pid : Int) : Bool :=
  decide (names = ∅) || inIncludeSub db names pid

/-- The exclude-tags filter: post id NOT IN the exclude subquery, applied only
when the set is non-empty (src/src/query.rs 126, 142). -/
def excludeFilter (db : Db) (names : Finset String) (pid : Int) : Bool :=
  decide (names = ∅) || !inExcludeSub db names pid

/-- The rating filters: rating IN include_ratings when that set is non-empty,
and rating NOT IN exclude_ratings when that set is non-empty
(src/src/query.rs 78-83 and 144-149). -/
def ratingFilter (ir er : Finset String) (p : Post) : Bool :=
  (decide (ir = ∅) || decide (p.rating ∈ ir)) && (decide (er = ∅) || !decide (p.rating ∈ er))

/-- Whether one post row survives every WHERE clause of the compiled search
query.  The two branches mirror src/src/query.rs 58-151: with no tag
constraint only the rating filters apply; otherwise the include and exclude
subquery filters are added.  Both branches left-join the tag tables for the
GROUP_CONCAT output, so neither drops untagged posts by itself.  The
visibility condition is ANDed at the end (line 153). -/
def searchFilter (db : Db) (ts : TokenSets) (u : Option User) (p : Post) : Bool :=
  if ts.include_tags = ∅ ∧ ts.exclude_tags = ∅ then
    ratingFilter ts.include_ratings ts.exclude_ratings p && filter_posts_by_user u p
  else
    includeFilter db ts.include_tags p.id &&
      (excludeFilter db ts.exclude_tags p.id &&
        (ratingFilter ts.include_ratings ts.exclude_ratings p && filter_posts_by_user u p))

/-- The ordered id list the compiled search query returns: the outer query
groups the left-joined rows by post id (one result row per surviving post) and
orders by id descending (src/src/query.rs 153-156). -/
def searchResults (db : Db) (ts : TokenSets) (u : Option User) : List Int :=
  ((db.posts.filter (searchFilter db ts u)).map (fun p => p.id)).insertionSort
    (fun a b => b ≤ a)

/-- search_posts (src/src/query.rs 33-157): classify the raw tokens, then
compile and run the filters.  A missing token list behaves as no tokens. -/
def search_posts (db : Db) (tokens : Option (List String)) (u : Option User) : List Int :=
  searchResults db (classifyTokens (tokens.getD [])) u

/-- A post id is associated with a normalized tag name: some association row
points from the post to some tag row carrying that normalized name. -/
def PostHasTag (db : Db) (pid : Int) (t : String) : Prop :=
  ∃ tp ∈ db.tag_posts, tp.post_id = pid ∧
    ∃ tg ∈ db.tags, tg.id = tp.tag_id ∧ tg.normalized_name = t

instance (db : Db) (pid : Int) (t : String) : Decidable (PostHasTag db pid t) := by
  unfold PostHasTag
  infer_instance

/-- Whether some tag row both backs the association row (inner join on tag id)
and carries a normalized name from the set. -/
def matchedTag (db : Db) (names : Finset String) (tp : TagPost) : Bool :=
  db.tags.any (fun tg => decide (tp.tag_id = tg.id) && decide (tg.normalized_name ∈ names))

/-- The normalized name of the tag row an association row points at (the
empty string if the foreign key does not resolve; row uniqueness makes the
first match the only match). -/
def tagNameOf (db : Db) (tid : Int) : String :=
  match db.tags.find? (fun tg => decide (tg.id = tid)) with
  | some tg => tg.normalized_name
  | none => ""

/-! ## PaginationEngine (src/src/views.rs 691-693)

The code calls the storage collaborator's paginator with page size 50:
num_pages is the total item count divided by the page size rounded upward, and
fetch_page p returns items [p * size, p * size + size). -/

/-- Modelled from the spec: the storage collaborator's paginator (the sea-orm
crate, outside this repository) computes the total page count as "total
matching row count and page size (ceiling division)" — item count over page
size, plus one when a remainder is left. -/
def num_pages (num_items page_size : Nat) : Nat :=
  num_items / page_size + (if num_items % page_size = 0 then 0 else 1)

/-- Modelled from the spec: the storage collaborator's fetch_page (sea-orm,
outside this repository) returns the 0-based page, items
[page * size, page * size + size), of the ordered results. -/
def fetch_page {α : Type*} (xs : List α) (page_size page : Nat) : List α :=
  (xs.drop (page * page_size)).take page_size

/-- posts_page (src/src/views.rs 676-693): run the search, paginate with page
size 50, and convert the 1-based page number with a saturating subtraction
(Nat subtraction is saturating, matching u32::saturating_sub).  Returns the
page of post ids and the total page count. -/
def posts_page (db : Db) (tokens : Option (List String)) (u : Option User) (page : Nat) :
    List Int × Nat :=
  let results := search_posts db tokens u
  (fetch_page results 50 (page - 1), num_pages results.length 50)

/-! ## Pool listing and PositionAllocator (src/src/query.rs 235-263,
src/src/views.rs 1023-1030 and 1085-1146) -/

/-- A row of the get_posts_in_pool result (struct PoolPost in
src/src/query.rs): post id, membership row id, and the position key.
Thumbnail, rating, media type and the tag aggregate are display glue. -/
structure PoolPost where
  id : Int
  pool_post_id : Int
  position : ℚ
  deriving DecidableEq

/-- The inner join of the pool listing onto samey_post, combined with the
visibility condition filter_posts_by_user adds. -/
def post_visible (db : Db) (u : Option User) (pid : Int) : Bool :=
  db.posts.any (fun q => decide (q.id = pid) && filter_posts_by_user u q)

/-- The inner joins of the pool listing onto samey_tag_post and samey_tag:
the row survives only when at least one association resolving to a tag row
exists for the post. -/
def has_any_tag (db : Db) (pid : Int) : Bool :=
  db.tag_posts.any (fun tp =>
    decide (tp.post_id = pid) && db.tags.any (fun tg => decide (tg.id = tp.tag_id)))

/-- get_posts_in_pool (src/src/query.rs 235-263): memberships of the pool,
inner-joined to the post (with the visibility filter), inner-joined to the tag
association and tag tables, grouped by post id and ordered by position
ascending. -/
def get_posts_in_pool (db : Db) (pool_id : Int) (u : Option User) : List PoolPost :=
  ((db.pool_posts.filter (fun pp =>
      decide (pp.pool_id = pool_id) &&
        (post_visible db u pp.post_id && has_any_tag db pp.post_id))).map
    (fun pp => { id := pp.post_id, pool_post_id := pp.id, position := pp.position })).insertionSort
    (fun a b => a.position ≤ b.position)

/-- How the sort_pool handler ends, seen from the position logic: no write
when the indices coincide, a not-found error when the source index does not
resolve, a task abort when the destination index is indexed out of bounds
(Rust slice indexing panics), or an update of one membership row to the
computed position. -/
inductive SortOutcome where
  | noChange : SortOutcome
  | notFound : SortOutcome
  | outOfBounds : SortOutcome
  | moved (pool_post_id : Int) (new_position : ℚ) : SortOutcome
  deriving DecidableEq

/-- The index arithmetic of sort_pool (src/src/views.rs 1108-1136) over the
fetched, position-ordered sequence.  old_index resolves through a checked get
(NotFound on failure); min_index and max_index follow the source's
checked_sub/saturating_sub arithmetic; the positions at those indices are then
read with panicking slice indexing, evaluated min first; the written position
is the midpoint. -/
def sort_pool_core (posts : List PoolPost) (old_index new_index : Nat) : SortOutcome :=
  if old_index = new_index then .noChange
  else
    match posts.get? old_index with
    | none => .notFound
    | some changed =>
      let min_index : Option Nat :=
        if new_index < old_index then (if new_index = 0 then none else some (new_index - 1))
        else some new_index
      let max_index : Option Nat :=
        if new_index = posts.length - 1 then none
        else if new_index < old_index then some new_index
        else some (new_index + 1)
      let loPos : Option ℚ :=
        match min_index with
        | none => some 0
        | some i => (posts.get? i).map (fun q => q.position)
      match loPos with
      | none => .outOfBounds
      | some lo =>
        let hiPos : Option ℚ :=
          match max_index with
          | none => some (((posts.getLast?.map (fun q => q.position)).getD lo) + 2)
          | some i => (posts.get? i).map (fun q => q.position)
        match hiPos with
        | none => .outOfBounds
        | some hi => .moved changed.pool_post_id ((lo + hi) / 2)

/-- sort_pool (src/src/views.rs 1085-1146), after the pool lookup and the
permission check: the position computation runs over the sequence
get_posts_in_pool returns. -/
def sort_pool (db : Db) (pool_id : Int) (u : Option User) (old_index new_index : Nat) :
    SortOutcome :=
  sort_pool_core (get_posts_in_pool db pool_id u) old_index new_index

/-- The position at an index of the ordered sequence (0 when out of range;
only used at in-range indices). -/
def posAt (posts : List PoolPost) (i : Nat) : ℚ :=
  ((posts.get? i).map (fun q => q.position)).getD 0

/-- Lower bound of the move, as the specification words it: for a move toward
the front, the position of the item before the destination (0.0 at the very
front); otherwise the position of the item at the destination. -/
def specLowerBound (posts : List PoolPost) (old_index new_index : Nat) : ℚ :=
  if new_index < old_index then (if new_index = 0 then 0 else posAt posts (new_index - 1))
  else posAt posts new_index

/-- Upper bound of the move, as the specification words it: at the last index,
the last item's position plus 2.0; otherwise the position at the destination
(moving toward the front) or just after it (moving toward the back). -/
def specUpperBound (posts : List PoolPost) (old_index new_index : Nat) : ℚ :=
  if new_index = posts.length - 1 then ((posts.getLast?.map (fun q => q.position)).getD 0) + 2
  else if new_index < old_index then posAt posts new_index
  else posAt posts (new_index + 1)

/-- The UPDATE sort_pool issues: set the position of one membership row,
selected by its row id, in the fetched sequence. -/
def update_pool_post_position (posts : List PoolPost) (pool_post_id : Int) (pos : ℚ) :
    List PoolPost :=
  posts.map (fun q => if decide (q.pool_post_id = pool_post_id) then { q with position := pos } else q)

/-- The SQL MAX aggregate over a list of values (none of an empty group, as
the left join yields). -/
def maxPos : List ℚ → Option ℚ
  | [] => none
  | x :: xs =>
    match maxPos xs with
    | none => some x
    | some m => some (max x m)

/-- The max_position column of the add_post_to_pool lookup
(src/src/views.rs 994-1004): MAX(position) over the pool's memberships via a
left join, NULL when the pool has none. -/
def max_position (db : Db) (pool_id : Int) : Option ℚ :=
  maxPos ((db.pool_posts.filter (fun pp => decide (pp.pool_id = pool_id))).map
    (fun pp => pp.position))

/-- The position add_post_to_pool writes for the new membership
(src/src/views.rs 1026): max_position.unwrap_or(0.0).floor() + 1.0. -/
def add_post_to_pool_position (db : Db) (pool_id : Int) : ℚ :=
  (⌊(max_position db pool_id).getD 0⌋ : ℚ) + 1

/-! ## TagLifecycleHelper: rename/merge (src/src/views.rs 1262-1297, with the
cascade of fk-samey_tag_post-samey_tag-tag_id from the migration) -/

/-- The subquery of the merge UPDATE: the post ids already associated with the
destination tag. -/
def posts_with_tag (db : Db) (tid : Int) : List Int :=
  (db.tag_posts.filter (fun tp => decide (tp.tag_id = tid))).map (fun tp => tp.post_id)

/-- The merge branch of edit_tag: re-point every association of the old tag
whose post does not already carry the destination tag, then delete the old tag
row; the schema's on_delete cascade drops the association rows still pointing
at the old tag. -/
def merge_tag_into (db : Db) (old_id new_id : Int) : Db :=
  let moved := db.tag_posts.map (fun tp =>
    if decide (tp.tag_id = old_id) && !decide (tp.post_id ∈ posts_with_tag db new_id) then
      { tp with tag_id := new_id }
    else tp)
  { db with
    tags := db.tags.filter (fun tg => !decide (tg.id = old_id)),
    tag_posts := moved.filter (fun tp => !decide (tp.tag_id = old_id)) }

/-- What the edit_tag handler does with a single old and new tag token, seen
from the tag store (the HTML around it is glue). -/
inductive EditTagResult where
  | notFound : EditTagResult
  | done (db : Db) : EditTagResult
  deriving DecidableEq

/-- edit_tag (src/src/views.rs 1262-1297): resolve the old tag by normalized
name (NotFound when absent); when the new normalized name resolves too, merge
into it, otherwise rename in place. -/
def edit_tag (db : Db) (old_raw new_raw : String) : EditTagResult :=
  let normalized_old := lowercase old_raw
  let normalized_new := lowercase new_raw
  match db.tags.find? (fun tg => decide (tg.normalized_name = normalized_old)) with
  | none => .notFound
  | some old_tag_db =>
    match db.tags.find? (fun tg => decide (tg.normalized_name = normalized_new)) with
    | some new_tag_db => .done (merge_tag_into db old_tag_db.id new_tag_db.id)
    | none =>
      .done { db with tags := db.tags.map (fun tg =>
        if decide (tg.id = old_tag_db.id) then
          { tg with name := new_raw, normalized_name := normalized_new }
        else tg) }

/-! ## Concrete fixtures used by the witnesses -/

/-- Fixture post: public, owner 10, rated safe, tagged a and b below. -/
def exP1 : Post := { id := 1, is_public := true, uploader_id := 10, rating := "safe" }

/-- Fixture post: private, owner 10, rated safe, tagged a below. -/
def exP2 : Post := { id := 2, is_public := false, uploader_id := 10, rating := "safe" }

/-- Fixture post: public, owner 11, rated explicit, with no tag association. -/
def exP3 : Post := { id := 3, is_public := true, uploader_id := 11, rating := "explicit" }

/-- Fixture user: the owner of exP1 and exP2, not an admin. -/
def exUserA : User := { id := 10, is_admin := false }

/-- Fixture database for the search properties: three posts, tags a and b,
exP1 tagged with both, exP2 tagged a, exP3 untagged. -/
def exDb : Db :=
  { posts := [exP1, exP2, exP3],
    tags := [{ id := 1, name := "A", normalized_name := "a" },
             { id := 2, name := "B", normalized_name := "b" }],
    tag_posts := [{ id := 1, tag_id := 1, post_id := 1 },
                  { id := 2, tag_id := 2, post_id := 1 },
                  { id := 3, tag_id := 1, post_id := 2 }],
    pool_posts := [] }

/-- Fixture position-ordered pool sequence with positions 1, 2 and 3. -/
def exPool3 : List PoolPost :=
  [{ id := 1, pool_post_id := 11, position := 1 },
   { id := 2, pool_post_id := 12, position := 2 },
   { id := 3, pool_post_id := 13, position := 3 }]

/-- Fixture membership row of exPoolDb whose post carries no tag. -/
def exPP6 : PoolPostRow := { id := 2, pool_id := 7, post_id := 6, position := 2 }

/-- Fixture database with pool 7 holding posts 5 (tagged, position 1),
6 (untagged, position 2) and 8 (tagged, position 5/2). -/
def exPoolDb : Db :=
  { posts := [{ id := 5, is_public := true, uploader_id := 10, rating := "safe" },
              { id := 6, is_public := true, uploader_id := 10, rating := "safe" },
              { id := 8, is_public := true, uploader_id := 10, rating := "safe" }],
    tags := [{ id := 1, name := "A", normalized_name := "a" }],
    tag_posts := [{ id := 1, tag_id := 1, post_id := 5 },
                  { id := 2, tag_id := 1, post_id := 8 }],
    pool_posts := [{ id := 1, pool_id := 7, post_id := 5, position := 1 },
                   exPP6,
                   { id := 3, pool_id := 7, post_id := 8, position := mkRat 5 2 }] }

/-- Fixture tag row named foo, associated with posts 1 and 2 of exTagDb. -/
def exTagFoo : TagRow := { id := 1, name := "foo", normalized_name := "foo" }

/-- Fixture tag row named bar, associated with post 2 of exTagDb. -/
def exTagBar : TagRow := { id := 2, name := "bar", normalized_name := "bar" }

/-- Fixture database for the rename-merge property: post 1 tagged foo only,
post 2 tagged both foo and bar. -/
def exTagDb : Db :=
  { posts := [exP1, exP2],
    tags := [exTagFoo, exTagBar],
    tag_posts := [{ id := 1, tag_id := 1, post_id := 1 },
                  { id := 2, tag_id := 1, post_id := 2 },
                  { id := 3, tag_id := 2, post_id := 2 }],
    pool_posts := [] }

/-! ## Helper lemmas: row uniqueness -/

theorem eq_of_pairwise_proj {α : Type*} {β : Type*} (f : α → β) {l : List α}
    (h : l.Pairwise (fun a b => f a ≠ f b)) {a b : α}
    (ha : a ∈ l) (hb : b ∈ l) (hf : f a = f b) : a = b := by
  by_contra hne
  refine h.forall ?_ ha hb hne hf
  intro x y hxy hyx
  exact hxy hyx.symm

theorem post_eq_of_id {db : Db} (hinv : DbInv db) {a b : Post}
    (ha : a ∈ db.posts) (hb : b ∈ db.posts) (h : a.id = b.id) : a = b :=
  eq_of_pairwise_proj (fun p => p.id) hinv.posts_id ha hb h

theorem tag_eq_of_id {db : Db} (hinv : DbInv db) {a b : TagRow}
    (ha : a ∈ db.tags) (hb : b ∈ db.tags) (h : a.id = b.id) : a = b :=
  eq_of_pairwise_proj (fun tg => tg.id) hinv.tags_id ha hb h

theorem tag_eq_of_name {db : Db} (hinv : DbInv db) {a b : TagRow}
    (ha : a ∈ db.tags) (hb : b ∈ db.tags) (h : a.normalized_name = b.normalized_name) : a = b :=
  eq_of_pairwise_proj (fun tg => tg.normalized_name) hinv.tags_name ha hb h

theorem tagPost_eq_of_key {db : Db} (hinv : DbInv db) {a b : TagPost}
    (ha : a ∈ db.tag_posts) (hb : b ∈ db.tag_posts)
    (h1 : a.post_id = b.post_id) (h2 : a.tag_id = b.tag_id) : a = b := by
  by_contra hne
  refine hinv.tag_post_unique.forall ?_ ha hb hne ⟨h1, h2⟩
  intro x y hxy hk
  exact hxy ⟨hk.1.symm, hk.2.symm⟩

theorem tag_posts_nodup {db : Db} (hinv : DbInv db) : db.tag_posts.Nodup := by
  refine hinv.tag_post_unique.imp ?_
  intro a b hR hab
  exact hR ⟨congrArg TagPost.post_id hab, congrArg TagPost.tag_id hab⟩

/-! ## Helper lemmas: counting filtered lists -/

theorem length_filter_le_one {α : Type*} {P : α → Bool} {l : List α}
    (h : l.Pairwise (fun a b => ¬(P a = true ∧ P b = true))) :
    (l.filter P).length ≤ 1 := by
  induction l with
  | nil => simp
  | cons a l ih =>
    rw [List.pairwise_cons] at h
    by_cases hPa : P a = true
    · rw [List.filter_cons_of_pos hPa]
      have hnil : l.filter P = [] :=
        List.filter_eq_nil_iff.mpr (fun b hb hPb => h.1 b hb ⟨hPa, hPb⟩)
      simp [hnil]
    · rw [List.filter_cons_of_neg hPa]
      exact ih h.2

theorem length_filter_eq_one {α : Type*} {P : α → Bool} {l : List α}
    (h : l.Pairwise (fun a b => ¬(P a = true ∧ P b = true)))
    {a : α} (ha : a ∈ l) (hPa : P a = true) : (l.filter P).length = 1 := by
  refine le_antisymm (length_filter_le_one h) ?_
  exact List.length_pos.mpr (List.ne_nil_of_mem (List.mem_filter.mpr ⟨ha, hPa⟩))

theorem sum_map_eq_of_unique {α : Type*} {l : List α} {P : α → Bool} (g : α → Nat)
    (h : l.Pairwise (fun a b => ¬(P a = true ∧ P b = true)))
    {p : α} (hp : p ∈ l) (hPp : P p = true) :
    (l.map (fun a => if P a = true then g a else 0)).sum = g p := by
  induction l with
  | nil => cases hp
  | cons a l ih =>
    rw [List.pairwise_cons] at h
    rcases List.mem_cons.mp hp with rfl | hmem
    · have hz : ∀ x ∈ l.map (fun a => if P a = true then g a else 0), x = 0 := by
        intro x hx
        rcases List.mem_map.mp hx with ⟨b, hb, rfl⟩
        have hPb : ¬ P b = true := fun hPb => h.1 b hb ⟨hPp, hPb⟩
        simp [hPb]
      simp [hPp, List.sum_eq_zero hz]
    · have hPa : ¬ P a = true := fun hPa => h.1 p hmem ⟨hPa, hPp⟩
      simp only [List.map_cons, List.sum_cons, if_neg hPa, Nat.zero_add]
      exact ih h.2 hmem

theorem sum_map_ite_one {α : Type*} {l : List α} {P : α → Bool} (g : α → Nat)
    (hg : ∀ a ∈ l, g a = if P a = true then 1 else 0) :
    (l.map g).sum = (l.filter P).length := by
  induction l with
  | nil => simp
  | cons a l ih =>
    simp only [List.map_cons, List.sum_cons]
    rw [hg a (List.mem_cons_self a l), ih (fun b hb => hg b (List.mem_cons_of_mem a hb))]
    by_cases hPa : P a = true
    · rw [if_pos hPa, List.filter_cons_of_pos hPa, List.length_cons]
      omega
    · rw [if_neg hPa, List.filter_cons_of_neg hPa]
      omega

/-! ## The include-tags count equals the number of matched include tags -/

theorem mem_includeInnerRows_fst {db : Db} {names : Finset String} {q : Post}
    {r : Post × TagPost × TagRow} (hr : r ∈ includeInnerRows db names q) : r.1 = q := by
  unfold includeInnerRows at hr
  rcases List.mem_flatMap.mp hr with ⟨tp, _, hmap⟩
  rcases List.mem_map.mp hmap with ⟨tg, _, rfl⟩
  rfl

theorem matchedTag_iff {db : Db} {names : Finset String} {tp : TagPost} :
    matchedTag db names tp = true ↔
      ∃ tg ∈ db.tags, tp.tag_id = tg.id ∧ tg.normalized_name ∈ names := by
  unfold matchedTag
  simp [List.any_eq_true]

theorem includeInnerRows_length {db : Db} (hinv : DbInv db) (names : Finset String) (q : Post) :
    (includeInnerRows db names q).length =
      ((db.tag_posts.filter (fun tp => decide (tp.post_id = q.id))).filter
        (matchedTag db names)).length := by
  unfold includeInnerRows
  rw [List.length_flatMap]
  refine sum_map_ite_one _ ?_
  intro tp _
  simp only [Function.comp_apply]
  rw [List.length_map]
  by_cases hm : matchedTag db names tp = true
  · rw [if_pos hm]
    rcases matchedTag_iff.mp hm with ⟨tg, htg, hid, hname⟩
    refine length_filter_eq_one ?_ htg (by simp [hid, hname])
    refine hinv.tags_id.imp ?_
    intro a b hab hk
    have ha1 : tp.tag_id = a.id := by
      have h1 := hk.1
      simp only [Bool.and_eq_true, decide_eq_true_eq] at h1
      exact h1.1
    have hb1 : tp.tag_id = b.id := by
      have h2 := hk.2
      simp only [Bool.and_eq_true, decide_eq_true_eq] at h2
      exact h2.1
    exact hab (ha1.symm.trans hb1)
  · rw [if_neg hm]
    rw [List.length_eq_zero]
    refine List.filter_eq_nil_iff.mpr ?_
    intro tg htg hcond
    simp only [Bool.and_eq_true, decide_eq_true_eq] at hcond
    exact hm (matchedTag_iff.mpr ⟨tg, htg, hcond.1, hcond.2⟩)

theorem includeCount_eq_inner {db : Db} (hinv : DbInv db) {p : Post} (hp : p ∈ db.posts)
    (names : Finset String) :
    includeCount db p.id names = (includeInnerRows db names p).length := by
  unfold includeCount includeJoinRows
  rw [List.filter_flatMap, List.length_flatMap]
  have hpt : ∀ q ∈ db.posts,
      ((includeInnerRows db names q).filter (fun r => decide (r.1.id = p.id))).length =
        if decide (q.id = p.id) = true then (includeInnerRows db names q).length else 0 := by
    intro q _
    by_cases hq : q.id = p.id
    · rw [if_pos (decide_eq_true hq)]
      congr 1
      refine List.filter_eq_self.mpr ?_
      intro r hr
      rw [mem_includeInnerRows_fst hr]
      exact decide_eq_true hq
    · rw [if_neg (by simpa using hq), List.length_eq_zero]
      refine List.filter_eq_nil_iff.mpr ?_
      intro r hr hcond
      rw [mem_includeInnerRows_fst hr] at hcond
      exact hq (of_decide_eq_true hcond)
  have hmapeq : List.map (List.length ∘ fun a =>
        List.filter (fun r => decide (r.1.id = p.id)) (includeInnerRows db names a)) db.posts =
      db.posts.map (fun q =>
        if decide (q.id = p.id) = true then (includeInnerRows db names q).length else 0) :=
    List.map_congr_left (fun q hq => hpt q hq)
  rw [hmapeq]
  refine sum_map_eq_of_unique _ ?_ hp (by simp)
  refine hinv.posts_id.imp ?_
  intro a b hab hk
  exact hab ((of_decide_eq_true hk.1).trans (of_decide_eq_true hk.2).symm)

theorem find_tag_eq {db : Db} (hinv : DbInv db) {tg : TagRow} (htg : tg ∈ db.tags)
    {tid : Int} (hid : tg.id = tid) :
    db.tags.find? (fun x => decide (x.id = tid)) = some tg := by
  have hsome : (db.tags.find? (fun x => decide (x.id = tid))).isSome := by
    rw [List.find?_isSome]
    exact ⟨tg, htg, by simp [hid]⟩
  obtain ⟨x, hx⟩ := Option.isSome_iff_exists.mp hsome
  have hxmem := List.mem_of_find?_eq_some hx
  have hxid : x.id = tid := by simpa using List.find?_some hx
  rw [hx]
  exact congrArg some (tag_eq_of_id hinv hxmem htg (hxid.trans hid.symm))

theorem tagNameOf_eq {db : Db} (hinv : DbInv db) {tg : TagRow} (htg : tg ∈ db.tags)
    {tid : Int} (hid : tg.id = tid) : tagNameOf db tid = tg.normalized_name := by
  unfold tagNameOf
  rw [find_tag_eq hinv htg hid]

theorem length_filter_matched_eq_card {db : Db} (hinv : DbInv db) (pid : Int)
    (names : Finset String) :
    ((db.tag_posts.filter (fun tp => decide (tp.post_id = pid))).filter
        (matchedTag db names)).length =
      (names.filter (fun t => PostHasTag db pid t)).card := by
  have hnd : ((db.tag_posts.filter (fun tp => decide (tp.post_id = pid))).filter
      (matchedTag db names)).Nodup := ((tag_posts_nodup hinv).filter _).filter _
  rw [← List.toFinset_card_of_nodup hnd]
  have hmemL : ∀ {tp : TagPost},
      tp ∈ ((db.tag_posts.filter (fun tp => decide (tp.post_id = pid))).filter
        (matchedTag db names)).toFinset ↔
      tp ∈ db.tag_posts ∧ tp.post_id = pid ∧ matchedTag db names tp = true := by
    intro tp
    rw [List.mem_toFinset, List.mem_filter, List.mem_filter]
    constructor
    · rintro ⟨⟨h1, h2⟩, h3⟩
      exact ⟨h1, of_decide_eq_true h2, h3⟩
    · rintro ⟨h1, h2, h3⟩
      exact ⟨⟨h1, decide_eq_true h2⟩, h3⟩
  refine Finset.card_nbij (fun tp => tagNameOf db tp.tag_id) ?_ ?_ ?_
  · intro tp htp
    rcases hmemL.mp htp with ⟨hmem, hpid, hm⟩
    rcases matchedTag_iff.mp hm with ⟨tg, htg, hid, hname⟩
    show tagNameOf db tp.tag_id ∈ names.filter (fun t => PostHasTag db pid t)
    rw [tagNameOf_eq hinv htg hid.symm]
    exact Finset.mem_filter.mpr ⟨hname, tp, hmem, hpid, tg, htg, hid.symm, rfl⟩
  · intro tp1 h1 tp2 h2 heq
    rw [Finset.mem_coe] at h1 h2
    rcases hmemL.mp h1 with ⟨hmem1, hpid1, hm1⟩
    rcases hmemL.mp h2 with ⟨hmem2, hpid2, hm2⟩
    rcases matchedTag_iff.mp hm1 with ⟨tg1, htg1, hid1, _⟩
    rcases matchedTag_iff.mp hm2 with ⟨tg2, htg2, hid2, _⟩
    have heq2 : tagNameOf db tp1.tag_id = tagNameOf db tp2.tag_id := heq
    rw [tagNameOf_eq hinv htg1 hid1.symm, tagNameOf_eq hinv htg2 hid2.symm] at heq2
    have htgeq : tg1 = tg2 := tag_eq_of_name hinv htg1 htg2 heq2
    refine tagPost_eq_of_key hinv hmem1 hmem2 (hpid1.trans hpid2.symm) ?_
    rw [hid1, htgeq, ← hid2]
  · intro t ht
    rw [Finset.mem_coe, Finset.mem_filter] at ht
    rcases ht with ⟨htn, tp, htp, hpostid, tg, htg, htgid, htgname⟩
    refine ⟨tp, ?_, ?_⟩
    · rw [Finset.mem_coe]
      exact hmemL.mpr ⟨htp, hpostid, matchedTag_iff.mpr ⟨tg, htg, htgid.symm, htgname ▸ htn⟩⟩
    · show tagNameOf db tp.tag_id = t
      rw [tagNameOf_eq hinv htg htgid, htgname]

theorem includeCount_eq_card {db : Db} (hinv : DbInv db) {p : Post} (hp : p ∈ db.posts)
    (names : Finset String) :
    includeCount db p.id names = (names.filter (fun t => PostHasTag db p.id t)).card :=
  (includeCount_eq_inner hinv hp names).trans
    ((includeInnerRows_length hinv names p).trans (length_filter_matched_eq_card hinv p.id names))

theorem includeFilter_iff {db : Db} (hinv : DbInv db) {p : Post} (hp : p ∈ db.posts)
    (names : Finset String) :
    includeFilter db names p.id = true ↔ ∀ t ∈ names, PostHasTag db p.id t := by
  unfold includeFilter inIncludeSub
  by_cases hem : names = ∅
  · subst hem
    simp
  · have hpos : 0 < names.card := Finset.card_pos.mpr (Finset.nonempty_iff_ne_empty.mpr hem)
    rw [includeCount_eq_card hinv hp names]
    simp only [hem, decide_False, Bool.false_or, Bool.and_eq_true, decide_eq_true_eq]
    constructor
    · rintro ⟨-, hcard⟩
      have hfe : names.filter (fun t => PostHasTag db p.id t) = names :=
        Finset.eq_of_subset_of_card_le (Finset.filter_subset _ _) (le_of_eq hcard.symm)
      exact fun t ht => (Finset.mem_filter.mp (hfe.symm ▸ ht)).2
    · intro hall
      have hfe : names.filter (fun t => PostHasTag db p.id t) = names :=
        Finset.filter_eq_self.mpr hall
      rw [hfe]
      exact ⟨hpos, rfl⟩

/-! ## Search result membership -/

theorem mem_searchResults {db : Db} (hinv : DbInv db) (ts : TokenSets) (u : Option User)
    {p : Post} (hp : p ∈ db.posts) :
    p.id ∈ searchResults db ts u ↔ searchFilter db ts u p = true := by
  unfold searchResults
  rw [List.mem_insertionSort]
  constructor
  · intro h
    rcases List.mem_map.mp h with ⟨q, hq, hqid⟩
    rcases List.mem_filter.mp hq with ⟨hqmem, hqf⟩
    rwa [post_eq_of_id hinv hqmem hp hqid] at hqf
  · intro hf
    exact List.mem_map.mpr ⟨p, List.mem_filter.mpr ⟨hp, hf⟩, rfl⟩

theorem inExcludeSub_iff {db : Db} {p : Post} (hp : p ∈ db.posts) (names : Finset String) :
    inExcludeSub db names p.id = true ↔ ∃ t ∈ names, PostHasTag db p.id t := by
  unfold inExcludeSub
  simp only [List.any_eq_true, Bool.and_eq_true, decide_eq_true_eq]
  constructor
  · rintro ⟨q, hq, hqid, tp, htp, htpid, tg, htg, htgid, htgname⟩
    exact ⟨tg.normalized_name, htgname,
      tp, htp, htpid.trans hqid, tg, htg, htgid.symm, rfl⟩
  · rintro ⟨t, htn, tp, htp, htpid, tg, htg, htgid, htgname⟩
    exact ⟨p, hp, rfl, tp, htp, htpid, tg, htg, htgid.symm, htgname ▸ htn⟩

/-- The invariants hold on the search fixture. -/
theorem exDb_inv : DbInv exDb :=
  ⟨by decide, by decide, by decide, by decide⟩

/-- The invariants hold on the pool fixture. -/
theorem exPoolDb_inv : DbInv exPoolDb :=
  ⟨by decide, by decide, by decide, by decide⟩

/-- The invariants hold on the tag-merge fixture. -/
theorem exTagDb_inv : DbInv exTagDb :=
  ⟨by decide, by decide, by decide, by decide⟩

/-- C1: for every set of include-tags T extracted from the query string, a
content item (passing the visibility and rating filters, with no exclude-tags)
appears in the search results iff it is associated with every tag in T; the
implementation counts matching associations grouped by content id and keeps
the groups whose count equals the cardinality of T exactly. -/
theorem include_tags_exact_match (db : Db) (hinv : DbInv db) (T IR ER : Finset String)
    (u : Option User) (p : Post) (hp : p ∈ db.posts)
    (hvis : filter_posts_by_user u p = true) (hrat : ratingFilter IR ER p = true) :
    (p.id ∈ searchResults db
        { include_tags := T, exclude_tags := ∅, include_ratings := IR, exclude_ratings := ER } u ↔
      ∀ t ∈ T, PostHasTag db p.id t) ∧
    includeFilter db T p.id =
      (decide (T = ∅) || (decide (0 < includeCount db p.id T) && decide (includeCount db p.id T = T.card))) := by
  refine ⟨?_, rfl⟩
  rw [mem_searchResults hinv _ u hp]
  unfold searchFilter
  by_cases hT : T = ∅
  · subst hT
    rw [if_pos ⟨rfl, rfl⟩]
    simp [hvis, hrat]
  · rw [if_neg (fun hand => hT hand.1)]
    have hex : excludeFilter db (∅ : Finset String) p.id = true := by
      unfold excludeFilter
      simp
    simp only [hex, hvis, hrat, Bool.and_true, Bool.true_and]
    exact includeFilter_iff hinv hp T

/-- C1 witness: in the fixture, post 1 carries both tags a and b, so it
appears in a search for both. -/
theorem include_tags_exact_match_witness :
    exP1.id ∈ searchResults exDb
      { include_tags := {"a", "b"}, exclude_tags := ∅,
        include_ratings := ∅, exclude_ratings := ∅ } none :=
  ((include_tags_exact_match exDb exDb_inv {"a", "b"} ∅ ∅ none exP1
    (by decide) (by decide) (by decide)).1).mpr (by decide)

/-- C2: a private content item is listed by the search exactly for its owner
and for admins: it appears for the owner and for every admin, and never for an
anonymous caller or for a non-owner, non-admin user. -/
theorem private_post_visibility (db : Db) (hinv : DbInv db) (p : Post) (hp : p ∈ db.posts)
    (hpriv : p.is_public = false) (a : User) (ha : a.id = p.uploader_id) :
    p.id ∈ search_posts db none (some a) ∧
    (∀ v : User, v.is_admin = true → p.id ∈ search_posts db none (some v)) ∧
    p.id ∉ search_posts db none none ∧
    (∀ v : User, v.is_admin = false → v.id ≠ p.uploader_id →
      p.id ∉ search_posts db none (some v)) := by
  have hts : classifyTokens ((none : Option (List String)).getD []) = emptyTokenSets := rfl
  have hbase : ∀ v : Option User,
      searchFilter db emptyTokenSets v p = filter_posts_by_user v p := by
    intro v
    unfold searchFilter
    rw [if_pos ⟨rfl, rfl⟩]
    simp [ratingFilter, emptyTokenSets]
  refine ⟨?_, ?_, ?_, ?_⟩
  · unfold search_posts
    rw [hts, mem_searchResults hinv _ _ hp, hbase]
    unfold filter_posts_by_user
    by_cases hadm : a.is_admin = true
    · simp [hadm]
    · simp only [Bool.not_eq_true] at hadm
      simp [hadm, ha.symm]
  · intro v hadm
    unfold search_posts
    rw [hts, mem_searchResults hinv _ _ hp, hbase]
    unfold filter_posts_by_user
    simp [hadm]
  · unfold search_posts
    rw [hts, mem_searchResults hinv _ _ hp, hbase]
    unfold filter_posts_by_user
    simp [hpriv]
  · intro v hadm hne
    unfold search_posts
    rw [hts, mem_searchResults hinv _ _ hp, hbase]
    unfold filter_posts_by_user
    simp only [hadm, Bool.false_eq_true, if_false, hpriv, Bool.false_or,
      decide_eq_true_eq]
    exact fun h => hne (h.symm ▸ rfl)

/-- C2 witness: the fixture's private post 2 (owner 10) is listed for its
owner. -/
theorem private_post_visibility_witness :
    exP2.id ∈ search_posts exDb none (some exUserA) :=
  (private_post_visibility exDb exDb_inv exP2 (by decide) (by decide) exUserA (by decide)).1

/-- C3: for every set of exclude-tags E extracted from the query string, a
content item (passing the visibility, rating and include-tag filters) is
excluded from the search results iff it is associated with at least one tag
in E. -/
theorem exclude_tags_any_match (db : Db) (hinv : DbInv db) (T E IR ER : Finset String)
    (u : Option User) (p : Post) (hp : p ∈ db.posts)
    (hvis : filter_posts_by_user u p = true) (hrat : ratingFilter IR ER p = true)
    (hT : includeFilter db T p.id = true) :
    p.id ∉ searchResults db
        { include_tags := T, exclude_tags := E, include_ratings := IR, exclude_ratings := ER } u ↔
      ∃ t ∈ E, PostHasTag db p.id t := by
  rw [mem_searchResults hinv _ u hp]
  unfold searchFilter
  by_cases hE : E = ∅
  · subst hE
    have hrhs : ¬ ∃ t ∈ (∅ : Finset String), PostHasTag db p.id t := by simp
    refine iff_of_false ?_ hrhs
    by_cases hTe : T = ∅
    · subst hTe
      rw [if_pos ⟨rfl, rfl⟩]
      simp [hvis, hrat]
    · rw [if_neg (fun hand => hTe hand.1)]
      have hex : excludeFilter db (∅ : Finset String) p.id = true := by
        unfold excludeFilter
        simp
      simp [hT, hex, hvis, hrat]
  · rw [if_neg (fun hand => hE hand.2)]
    have hexf : excludeFilter db E p.id = !inExcludeSub db E p.id := by
      unfold excludeFilter
      simp [hE]
    rw [hexf]
    simp only [hT, hvis, hrat, Bool.true_and, Bool.and_true]
    rw [← inExcludeSub_iff hp E]
    constructor
    · intro h
      by_contra hx
      simp only [Bool.not_eq_true] at hx
      exact h (by simp [hx])
    · intro h hcon
      simp only [h, Bool.not_true, Bool.false_eq_true] at hcon

/-- C3 witness: in the fixture, post 1 carries tag b and is dropped when b is
excluded. -/
theorem exclude_tags_any_match_witness :
    exP1.id ∉ searchResults exDb
      { include_tags := ∅, exclude_tags := {"b"},
        include_ratings := ∅, exclude_ratings := ∅ } none :=
  (exclude_tags_any_match exDb exDb_inv ∅ {"b"} ∅ ∅ none exP1
    (by decide) (by decide) (by decide) (by decide)).mpr (by decide)

/-- C9: with no include-tags and no exclude-tags, a content item with zero tag
associations still appears in the search results when it passes the rating and
visibility filters: the tag aggregation is a left join. -/
theorem untagged_post_in_results (db : Db) (hinv : DbInv db) (IR ER : Finset String)
    (u : Option User) (p : Post) (hp : p ∈ db.posts)
    (hnotag : ∀ tp ∈ db.tag_posts, tp.post_id ≠ p.id)
    (hvis : filter_posts_by_user u p = true) (hrat : ratingFilter IR ER p = true) :
    p.id ∈ searchResults db
      { include_tags := ∅, exclude_tags := ∅, include_ratings := IR, exclude_ratings := ER } u := by
  rw [mem_searchResults hinv _ u hp]
  unfold searchFilter
  rw [if_pos ⟨rfl, rfl⟩]
  simp [hvis, hrat]

/-- C9 witness: the fixture's untagged post 3 appears in a rating-filtered
search with no tag constraint. -/
theorem untagged_post_in_results_witness :
    exP3.id ∈ searchResults exDb
      { include_tags := ∅, exclude_tags := ∅,
        include_ratings := {"explicit"}, exclude_ratings := ∅ } none :=
  untagged_post_in_results exDb exDb_inv {"explicit"} ∅ none exP3
    (by decide) (by decide) (by decide) (by decide)

/-! ## Pagination -/

theorem le_mul_num_pages (n s : Nat) (hs : 0 < s) : n ≤ s * num_pages n s := by
  unfold num_pages
  rw [Nat.mul_add]
  have hdm := Nat.div_add_mod n s
  have hlt := Nat.mod_lt n hs
  generalize s * (n / s) = m at hdm ⊢
  by_cases h : n % s = 0
  · rw [if_pos h]
    omega
  · rw [if_neg h]
    omega

theorem mul_num_pages_lt (n s : Nat) (hs : 0 < s) : s * num_pages n s < n + s := by
  unfold num_pages
  rw [Nat.mul_add]
  have hdm := Nat.div_add_mod n s
  have hlt := Nat.mod_lt n hs
  generalize s * (n / s) = m at hdm ⊢
  by_cases h : n % s = 0
  · rw [if_pos h]
    omega
  · rw [if_neg h]
    omega

theorem num_pages_eq_ceil (n s : Nat) (hs : 0 < s) :
    (num_pages n s : ℤ) = ⌈(n : ℚ) / (s : ℚ)⌉ := by
  have hsQ : (0 : ℚ) < s := by exact_mod_cast hs
  symm
  rw [Int.ceil_eq_iff]
  constructor
  · rw [lt_div_iff₀ hsQ]
    have h1 : (s : ℚ) * num_pages n s < n + s := by exact_mod_cast mul_num_pages_lt n s hs
    push_cast
    nlinarith [h1]
  · rw [div_le_iff₀ hsQ]
    have h2 : (n : ℚ) ≤ s * num_pages n s := by exact_mod_cast le_mul_num_pages n s hs
    push_cast
    nlinarith [h2]

/-- C7: the total page count is the row count divided by the page size rounded
up (51 rows at page size 50 give 2 pages), and page 0 and page 1 of posts_page
return the same result because the 1-based page number is converted with a
saturating subtraction. -/
theorem pagination_ceiling_and_first_page :
    (∀ n s : Nat, 0 < s → (num_pages n s : ℤ) = ⌈(n : ℚ) / (s : ℚ)⌉) ∧
    num_pages 51 50 = 2 ∧
    (∀ (db : Db) (tokens : Option (List String)) (u : Option User),
      posts_page db tokens u 0 = posts_page db tokens u 1) := by
  refine ⟨num_pages_eq_ceil, by decide, ?_⟩
  intro db tokens u
  rfl

/-! ## PositionAllocator: append -/

theorem maxPos_mem {l : List ℚ} {k : ℚ} (h : maxPos l = some k) : k ∈ l := by
  induction l generalizing k with
  | nil => simp [maxPos] at h
  | cons a l ih =>
    unfold maxPos at h
    cases hl : maxPos l with
    | none =>
      rw [hl] at h
      exact List.mem_cons.mpr (Or.inl (Option.some_injective _ h).symm)
    | some j =>
      rw [hl] at h
      have hk : k = max a j := (Option.some_injective _ h).symm
      rcases max_choice a j with hc | hc
      · exact List.mem_cons.mpr (Or.inl (hk.trans hc))
      · exact List.mem_cons.mpr (Or.inr ((hk.trans hc).symm ▸ ih hl))

theorem maxPos_eq_of_mem_of_le {l : List ℚ} {m : ℚ} (hm : m ∈ l) (hub : ∀ x ∈ l, x ≤ m) :
    maxPos l = some m := by
  induction l with
  | nil => cases hm
  | cons a l ih =>
    rcases List.mem_cons.mp hm with rfl | hmem
    · cases hl : maxPos l with
      | none => simp [maxPos, hl]
      | some k =>
        have hk : k ∈ l := maxPos_mem hl
        have hka : k ≤ m := hub k (List.mem_cons_of_mem m hk)
        simp [maxPos, hl, max_eq_left hka]
    · have hma : maxPos l = some m := ih hmem (fun x hx => hub x (List.mem_cons_of_mem a hx))
      have ham : a ≤ m := hub a (List.mem_cons_self a l)
      simp [maxPos, hma, max_eq_right ham]

/-- C5: appending a content item to a pool assigns position
floor(current maximum position) + 1, and position 1 when the pool has no
memberships; so a pool whose maximum position is 5/2 appends at 3. -/
theorem append_position_floor :
    ∀ (db : Db) (pool_id : Int),
      (db.pool_posts.filter (fun pp => decide (pp.pool_id = pool_id)) = [] →
        add_post_to_pool_position db pool_id = 1) ∧
      (∀ m : ℚ,
        (∃ pp ∈ db.pool_posts.filter (fun pp => decide (pp.pool_id = pool_id)),
          pp.position = m) →
        (∀ pp ∈ db.pool_posts.filter (fun pp => decide (pp.pool_id = pool_id)),
          pp.position ≤ m) →
        add_post_to_pool_position db pool_id = (⌊m⌋ : ℚ) + 1) := by
  intro db pool_id
  constructor
  · intro hnil
    unfold add_post_to_pool_position max_position
    rw [hnil]
    norm_num [maxPos]
  · rintro m ⟨pp0, hpp0, hpos0⟩ hub
    unfold add_post_to_pool_position max_position
    have hmem : m ∈ (db.pool_posts.filter (fun pp => decide (pp.pool_id = pool_id))).map
        (fun pp => pp.position) := List.mem_map.mpr ⟨pp0, hpp0, hpos0⟩
    have hub2 : ∀ x ∈ (db.pool_posts.filter (fun pp => decide (pp.pool_id = pool_id))).map
        (fun pp => pp.position), x ≤ m := by
      intro x hx
      rcases List.mem_map.mp hx with ⟨pp1, hpp1, rfl⟩
      exact hub pp1 hpp1
    rw [maxPos_eq_of_mem_of_le hmem hub2]
    rfl

/-- C5 witness: in the pool fixture, pool 99 is empty and appends at 1, and
pool 7 has maximum position 5/2 and appends at 3. -/
theorem append_position_floor_witness :
    add_post_to_pool_position exPoolDb 99 = 1 ∧ add_post_to_pool_position exPoolDb 7 = 3 := by
  constructor
  · exact (append_position_floor exPoolDb 99).1 (by decide)
  · have h := (append_position_floor exPoolDb 7).2 (mkRat 5 2) (by decide) (by decide)
    rw [h]
    have hm : mkRat 5 2 = (5 : ℚ) / 2 := by norm_num [mkRat]
    rw [hm]
    norm_num [Int.floor_eq_iff]

/-! ## PositionAllocator: move -/

/-- C4: moving within a pool is a no-op when source equals destination, and
otherwise writes the midpoint of the lower and upper bound positions chosen
from the destination's neighbors; for positions [1, 2, 3], moving index 2 to
index 0 writes position 1/2 < 1 and the resulting ascending order is the moved
item first, then the items at positions 1 and 2. -/
theorem sort_pool_core_midpoint :
    (∀ (posts : List PoolPost) (old_index new_index : Nat),
      old_index < posts.length → new_index < posts.length →
      ((old_index = new_index → sort_pool_core posts old_index new_index = SortOutcome.noChange) ∧
       (old_index ≠ new_index →
        ∀ changed : PoolPost, posts.get? old_index = some changed →
          sort_pool_core posts old_index new_index =
            SortOutcome.moved changed.pool_post_id
              ((specLowerBound posts old_index new_index +
                  specUpperBound posts old_index new_index) / 2)))) ∧
    (sort_pool_core exPool3 2 0 = SortOutcome.moved 13 (1 / 2) ∧
      (1 / 2 : ℚ) < 1 ∧
      ((update_pool_post_position exPool3 13 (1 / 2)).insertionSort
          (fun a b => a.position ≤ b.position)).map (fun q => q.pool_post_id) = [13, 11, 12]) := by
  have hgen : ∀ (posts : List PoolPost) (old_index new_index : Nat),
      old_index < posts.length → new_index < posts.length →
      ((old_index = new_index → sort_pool_core posts old_index new_index = SortOutcome.noChange) ∧
       (old_index ≠ new_index →
        ∀ changed : PoolPost, posts.get? old_index = some changed →
          sort_pool_core posts old_index new_index =
            SortOutcome.moved changed.pool_post_id
              ((specLowerBound posts old_index new_index +
                  specUpperBound posts old_index new_index) / 2))) := by
    intro posts old_index new_index hold hfresh
    constructor
    · intro heq
      unfold sort_pool_core
      rw [if_pos heq]
    · intro hne changed hchanged
      unfold sort_pool_core
      rw [if_neg hne, hchanged]
      by_cases hlt : new_index < old_index
      · have hlast : ¬ (new_index = posts.length - 1) := by omega
        by_cases h0 : new_index = 0
        · subst h0
          obtain ⟨q0, hq0⟩ : ∃ q, posts[0]? = some q := ⟨_, List.getElem?_eq_getElem hfresh⟩
          simp [specLowerBound, specUpperBound, posAt, hlt, hlast, hq0]
        · obtain ⟨qm, hqm⟩ : ∃ q, posts[new_index - 1]? = some q :=
            ⟨_, List.getElem?_eq_getElem (by omega)⟩
          obtain ⟨qf, hqf⟩ : ∃ q, posts[new_index]? = some q :=
            ⟨_, List.getElem?_eq_getElem hfresh⟩
          simp [specLowerBound, specUpperBound, posAt, hlt, hlast, h0, hqm, hqf]
      · obtain ⟨qf, hqf⟩ : ∃ q, posts[new_index]? = some q :=
          ⟨_, List.getElem?_eq_getElem hfresh⟩
        by_cases hlast : new_index = posts.length - 1
        · obtain ⟨qL, hqL⟩ : ∃ q, posts.getLast? = some q :=
            Option.isSome_iff_exists.mp (List.getLast?_isSome.mpr
              (List.ne_nil_of_length_pos (by omega)))
          simp [specLowerBound, specUpperBound, posAt, hlt, ← hlast, hqf, hqL]
        · obtain ⟨qn, hqn⟩ : ∃ q, posts[new_index + 1]? = some q :=
            ⟨_, List.getElem?_eq_getElem (by omega)⟩
          simp [specLowerBound, specUpperBound, posAt, hlt, hlast, hqf, hqn]
  refine ⟨hgen, ?_, by norm_num, ?_⟩
  · have h := (hgen exPool3 2 0 (by decide) (by decide)).2 (by decide)
      { id := 3, pool_post_id := 13, position := 3 } rfl
    rw [h]
    norm_num [specLowerBound, specUpperBound, posAt, exPool3]
  · have hupd : update_pool_post_position exPool3 13 (1 / 2) =
        [{ id := 1, pool_post_id := 11, position := 1 },
         { id := 2, pool_post_id := 12, position := 2 },
         { id := 3, pool_post_id := 13, position := 1 / 2 }] := by
      simp [update_pool_post_position, exPool3]
    rw [hupd]
    simp [List.insertionSort, List.orderedInsert]
    norm_num

/-- C8 counterexample: in the fixture sequence of length 3, moving source
index 0 to destination index 5 does not signal not-found: it aborts with
out-of-bounds slice indexing. -/
theorem sort_pool_oob_destination_cex :
    sort_pool_core exPool3 0 5 ≠ SortOutcome.notFound ∧
      sort_pool_core exPool3 0 5 = SortOutcome.outOfBounds := by
  constructor
  · decide
  · decide

/-- C8 as the code behaves: when source and destination differ, an
out-of-range source index signals not-found, but an out-of-range destination
index (with the source in range) aborts with out-of-bounds slice indexing
instead; when source equals destination the request is a no-op even if both
indices are out of range. -/
theorem sort_pool_index_errors :
    ∀ (posts : List PoolPost) (old_index new_index : Nat),
      (old_index = new_index → sort_pool_core posts old_index new_index = SortOutcome.noChange) ∧
      (old_index ≠ new_index → posts.length ≤ old_index →
        sort_pool_core posts old_index new_index = SortOutcome.notFound) ∧
      (old_index ≠ new_index → old_index < posts.length → posts.length ≤ new_index →
        sort_pool_core posts old_index new_index = SortOutcome.outOfBounds) := by
  intro posts old_index new_index
  refine ⟨?_, ?_, ?_⟩
  · intro heq
    unfold sort_pool_core
    rw [if_pos heq]
  · intro hne hlen
    unfold sort_pool_core
    rw [if_neg hne, List.get?_eq_none.mpr hlen]
  · intro hne hold hnew
    obtain ⟨changed, hchanged⟩ : ∃ q, posts.get? old_index = some q :=
      ⟨_, List.get?_eq_get hold⟩
    have hlt : ¬ new_index < old_index := by omega
    have hlast : ¬ (new_index = posts.length - 1) := by omega
    have hnone : posts[new_index]? = none := by
      simpa using List.get?_eq_none.mpr hnew
    unfold sort_pool_core
    rw [if_neg hne, hchanged]
    simp [hlt, hlast, hnone]

/-! ## Tag rename merge -/

theorem find_tag_by_name_eq {db : Db} (hinv : DbInv db) {tg : TagRow} (htg : tg ∈ db.tags)
    {nm : String} (h : tg.normalized_name = nm) :
    db.tags.find? (fun x => decide (x.normalized_name = nm)) = some tg := by
  have hsome : (db.tags.find? (fun x => decide (x.normalized_name = nm))).isSome := by
    rw [List.find?_isSome]
    exact ⟨tg, htg, by simp [h]⟩
  obtain ⟨x, hx⟩ := Option.isSome_iff_exists.mp hsome
  have hxmem := List.mem_of_find?_eq_some hx
  have hxnm : x.normalized_name = nm := by simpa using List.find?_some hx
  rw [hx]
  exact congrArg some (tag_eq_of_name hinv hxmem htg (hxnm.trans h.symm))

theorem mem_posts_with_tag {db : Db} {tid pid : Int} :
    pid ∈ posts_with_tag db tid ↔
      ∃ tp ∈ db.tag_posts, tp.tag_id = tid ∧ tp.post_id = pid := by
  unfold posts_with_tag
  simp only [List.mem_map, List.mem_filter, decide_eq_true_eq]
  constructor
  · rintro ⟨tp, ⟨htp, htid⟩, rfl⟩
    exact ⟨tp, htp, htid, rfl⟩
  · rintro ⟨tp, htp, htid, rfl⟩
    exact ⟨tp, ⟨htp, htid⟩, rfl⟩

/-- C6: renaming a tag to a normalized name that already belongs to another
tag merges: afterwards no association references the old tag, the old tag row
is gone, every content item previously associated with the old tag is
associated with the destination tag, and the (content, tag) uniqueness
invariant is preserved (no duplicate association is created). -/
theorem rename_merge (db : Db) (hinv : DbInv db) (old_raw new_raw : String)
    (told tnew : TagRow) (htold : told ∈ db.tags) (htnew : tnew ∈ db.tags)
    (ho : told.normalized_name = lowercase old_raw) (hn : tnew.normalized_name = lowercase new_raw)
    (hne : told.normalized_name ≠ tnew.normalized_name) :
    edit_tag db old_raw new_raw = EditTagResult.done (merge_tag_into db told.id tnew.id) ∧
    (∀ tp ∈ (merge_tag_into db told.id tnew.id).tag_posts, tp.tag_id ≠ told.id) ∧
    (∀ tg ∈ (merge_tag_into db told.id tnew.id).tags, tg.id ≠ told.id) ∧
    (∀ pid : Int, (∃ tp ∈ db.tag_posts, tp.tag_id = told.id ∧ tp.post_id = pid) →
      ∃ tp ∈ (merge_tag_into db told.id tnew.id).tag_posts,
        tp.tag_id = tnew.id ∧ tp.post_id = pid) ∧
    (merge_tag_into db told.id tnew.id).tag_posts.Pairwise
      (fun a b => ¬(a.post_id = b.post_id ∧ a.tag_id = b.tag_id)) := by
  have hid : told.id ≠ tnew.id := by
    intro h
    exact hne (congrArg TagRow.normalized_name (tag_eq_of_id hinv htold htnew h))
  refine ⟨?_, ?_, ?_, ?_, ?_⟩
  · unfold edit_tag
    simp only [find_tag_by_name_eq hinv htold ho, find_tag_by_name_eq hinv htnew hn]
  · intro tp htp
    unfold merge_tag_into at htp
    simp only [List.mem_filter, Bool.not_eq_true', decide_eq_false_iff_not] at htp
    exact htp.2
  · intro tg htg
    unfold merge_tag_into at htg
    simp only [List.mem_filter, Bool.not_eq_true', decide_eq_false_iff_not] at htg
    exact htg.2
  · rintro pid ⟨tp0, htp0, htid0, hpid0⟩
    by_cases hin : tp0.post_id ∈ posts_with_tag db tnew.id
    · rcases mem_posts_with_tag.mp hin with ⟨tp1, htp1, htid1, hpid1⟩
      refine ⟨tp1, ?_, htid1, hpid1.trans (hpid0 ▸ rfl)⟩
      unfold merge_tag_into
      rw [List.mem_filter]
      constructor
      · refine List.mem_map.mpr ⟨tp1, htp1, ?_⟩
        rw [if_neg]
        intro hcond
        rw [Bool.and_eq_true, decide_eq_true_eq] at hcond
        exact hid.symm (htid1 ▸ hcond.1)
      · simp [htid1, hid.symm]
    · refine ⟨{ tp0 with tag_id := tnew.id }, ?_, rfl, hpid0⟩
      unfold merge_tag_into
      rw [List.mem_filter]
      constructor
      · refine List.mem_map.mpr ⟨tp0, htp0, ?_⟩
        rw [if_pos]
        rw [Bool.and_eq_true, decide_eq_true_eq, Bool.not_eq_true', decide_eq_false_iff_not]
        exact ⟨htid0, hin⟩
      · simp [hid.symm]
  · unfold merge_tag_into
    refine List.Pairwise.sublist (List.filter_sublist _) ?_
    rw [List.pairwise_map]
    refine hinv.tag_post_unique.imp_of_mem ?_
    intro a b ha hb hR hK
    by_cases hca : (decide (a.tag_id = told.id) &&
        !decide (a.post_id ∈ posts_with_tag db tnew.id)) = true
    · rw [Bool.and_eq_true, decide_eq_true_eq, Bool.not_eq_true', decide_eq_false_iff_not] at hca
      by_cases hcb : (decide (b.tag_id = told.id) &&
          !decide (b.post_id ∈ posts_with_tag db tnew.id)) = true
      · rw [Bool.and_eq_true, decide_eq_true_eq, Bool.not_eq_true',
          decide_eq_false_iff_not] at hcb
        rw [if_pos (by simp [hca.1, hca.2]), if_pos (by simp [hcb.1, hcb.2])] at hK
        exact hR ⟨hK.1, hca.1.trans hcb.1.symm⟩
      · rw [if_pos (by simp [hca.1, hca.2]), if_neg hcb] at hK
        refine hca.2 (mem_posts_with_tag.mpr ⟨b, hb, ?_, hK.1.symm⟩)
        have : b.tag_id = tnew.id := hK.2.symm
        exact this
    · by_cases hcb : (decide (b.tag_id = told.id) &&
          !decide (b.post_id ∈ posts_with_tag db tnew.id)) = true
      · rw [Bool.and_eq_true, decide_eq_true_eq, Bool.not_eq_true',
          decide_eq_false_iff_not] at hcb
        rw [if_neg hca, if_pos (by simp [hcb.1, hcb.2])] at hK
        refine hcb.2 (mem_posts_with_tag.mpr ⟨a, ha, ?_, hK.1⟩)
        exact hK.2
      · rw [if_neg hca, if_neg hcb] at hK
        exact hR hK

/-- C6 witness: merging tag foo (id 1) into tag bar (id 2) in the fixture:
edit_tag takes the merge path, and the resulting association table re-points
post 1 to bar and cascade-drops the foo association of post 2, which already
carried bar. -/
theorem rename_merge_witness :
    edit_tag exTagDb "foo" "bar" = EditTagResult.done (merge_tag_into exTagDb 1 2) ∧
    (merge_tag_into exTagDb 1 2).tag_posts =
      [{ id := 1, tag_id := 2, post_id := 1 }, { id := 3, tag_id := 2, post_id := 2 }] ∧
    (merge_tag_into exTagDb 1 2).tags = [exTagBar] := by
  refine ⟨?_, by decide, by decide⟩
  exact (rename_merge exTagDb exTagDb_inv "foo" "bar" exTagFoo exTagBar
    (by decide) (by decide) (by decide) (by decide) (by decide)).1

/-! ## Pool listing skips untagged members -/

/-- C10: a pool membership whose post has zero tag associations is absent from
the pool-contents listing (the listing inner-joins the tag association and tag
tables), and the move indices of sort_pool are interpreted over exactly this
tag-filtered sequence. -/
theorem pool_listing_skips_untagged (db : Db) (u : Option User) (pool_id : Int)
    (pp : PoolPostRow) (hpp : pp ∈ db.pool_posts) (hpool : pp.pool_id = pool_id)
    (hnotag : ∀ tp ∈ db.tag_posts, tp.post_id ≠ pp.post_id) :
    (∀ q ∈ get_posts_in_pool db pool_id u, q.id ≠ pp.post_id) ∧
    (∀ old_index new_index : Nat,
      sort_pool db pool_id u old_index new_index =
        sort_pool_core (get_posts_in_pool db pool_id u) old_index new_index) := by
  constructor
  · intro q hq
    unfold get_posts_in_pool at hq
    rw [List.mem_insertionSort] at hq
    rcases List.mem_map.mp hq with ⟨pp1, hpp1, rfl⟩
    rcases List.mem_filter.mp hpp1 with ⟨hpp1mem, hcond⟩
    intro hqid
    have htag : has_any_tag db pp1.post_id = true := by
      rw [Bool.and_eq_true, Bool.and_eq_true] at hcond
      exact hcond.2.2
    unfold has_any_tag at htag
    simp only [List.any_eq_true, Bool.and_eq_true, decide_eq_true_eq] at htag
    rcases htag with ⟨tp, htp, htpid, -⟩
    exact hnotag tp htp (htpid.trans hqid)
  · intro old_index new_index
    rfl

/-- C10 witness: in the pool fixture, untagged post 6 has a membership row in
pool 7 but is absent from the listing, over which sort_pool interprets its
indices. -/
theorem pool_listing_skips_untagged_witness :
    (¬ ∃ q ∈ get_posts_in_pool exPoolDb 7 none, q.id = exPP6.post_id) ∧
    sort_pool exPoolDb 7 none 0 1 = sort_pool_core (get_posts_in_pool exPoolDb 7 none) 0 1 := by
  have h := pool_listing_skips_untagged exPoolDb none 7 exPP6 (by decide) (by decide) (by decide)
  exact ⟨fun ⟨q, hq, hid⟩ => h.1 q hq hid, h.2 0 1⟩

end Samey
